import Mathlib

/-
Verification development for the server-testing core of
Mullvad-Server-Tester-V2 (src/server_manager.py).

The Python code is shallowly embedded: pure helpers become Lean functions
on ℚ/ℕ/String, the subprocess/network/thread environment is passed in as
explicit oracles or event traces, and the concurrent worker pool is given
a small-step interleaving semantics driven by an explicit schedule of
labels.  Python floats are modelled as rationals, Python str as Lean
String or List Char.
-/

set_option maxHeartbeats 1000000

/-! ## String utilities modelling Python str operations (ASCII range) -/

/-- Does the first list occur as a leading segment of the second? -/
def listLeads : List Char → List Char → Bool
  | [], _ => true
  | _ :: _, [] => false
  | a :: as, b :: bs => a = b && listLeads as bs

/-- Remove the first list from the front of the second, if it leads it. -/
def dropLead : List Char → List Char → Option (List Char)
  | [], cs => some cs
  | _ :: _, [] => none
  | a :: as, b :: bs => if a = b then dropLead as bs else none

/-- Substring containment, modelling the Python `in` operator on str. -/
def containsSub (needle : List Char) : List Char → Bool
  | [] => listLeads needle []
  | c :: rest => listLeads needle (c :: rest) || containsSub needle rest

/-- Characters stripped by Python str.strip() with no argument (ASCII part). -/
def pyWsChar (c : Char) : Bool :=
  c = ' ' || c = '\t' || c = '\n' || c = '\r' || c = '\x0b' || c = '\x0c'

/-- Python str.strip(): remove leading and trailing whitespace. -/
def pyStrip (cs : List Char) : List Char :=
  ((cs.dropWhile pyWsChar).reverse.dropWhile pyWsChar).reverse

/-- Python str.split(sep) for a one-character separator: split on every
occurrence, keeping empty segments; the empty string yields one empty
segment. -/
def pySplit (sep : Char) : List Char → List (List Char)
  | [] => [[]]
  | c :: rest =>
    if c = sep then [] :: pySplit sep rest
    else
      match pySplit sep rest with
      | [] => [[c]]
      | t :: ts => (c :: t) :: ts

/-- Helper for pySplitlines, carrying the current line reversed. -/
def pySplitlinesAux : List Char → List Char → List (List Char)
  | [], acc => if acc.isEmpty then [] else [acc.reverse]
  | '\r' :: '\n' :: rest, acc => acc.reverse :: pySplitlinesAux rest []
  | '\r' :: rest, acc => acc.reverse :: pySplitlinesAux rest []
  | '\n' :: rest, acc => acc.reverse :: pySplitlinesAux rest []
  | c :: rest, acc => pySplitlinesAux rest (c :: acc)

/-- Python str.splitlines() restricted to the newline conventions produced
by ping output: a trailing line terminator produces no extra empty line. -/
def pySplitlines (cs : List Char) : List (List Char) :=
  pySplitlinesAux cs []

/-- Character class of the regex fragment used by the Unix ping parser:
a decimal digit or a dot. -/
def isNumDot (c : Char) : Bool := c.isDigit || c = '.'

/-- Numeric value of a digit string (most significant first). -/
def natOfDigits (ds : List Char) : ℕ :=
  ds.foldl (fun a c => 10 * a + (c.toNat - 48)) 0

/-- Rational value of an integer part and a fractional part given as digit
strings, as Python float() computes for a plain decimal literal. -/
def ratOfParts (ip fp : List Char) : ℚ :=
  (natOfDigits ip : ℚ) + (natOfDigits fp : ℚ) / (10 : ℚ) ^ fp.length

/-- Python float() on a token drawn from the character class of digits and
dots: it succeeds exactly when the token has at most one dot and at least
one digit.  Arbitrary other characters make it fail (ValueError → none).
The modelled grammar covers plain unsigned decimal literals, the only
shapes the ping-output parsers can feed it. -/
def tokenFloat (tok : List Char) : Option ℚ :=
  let ip := tok.takeWhile Char.isDigit
  let rest := tok.dropWhile Char.isDigit
  match rest with
  | [] => if ip.isEmpty then none else some (natOfDigits ip)
  | '.' :: r2 =>
    let fp := r2.takeWhile Char.isDigit
    let r3 := r2.dropWhile Char.isDigit
    if r3.isEmpty && !(ip.isEmpty && fp.isEmpty) then some (ratOfParts ip fp) else none
  | _ => none

/-- Python float(s) for the fallback path: strip whitespace, allow one
sign, then a plain decimal literal.  Special forms (inf, nan, exponents,
digit-group underscores) are outside the modelled grammar and map to
none, like any other ValueError input. -/
def pyFloat (cs : List Char) : Option ℚ :=
  let t := pyStrip cs
  match t with
  | '-' :: r => (tokenFloat r).map (fun q => -q)
  | '+' :: r => tokenFloat r
  | _ => tokenFloat t

/-! ## Latency parsers (src/server_manager.py lines 21-45)

The regexes are embedded by maximal-munch scanning, which is faithful
here: in the pattern fragments a greedy character-class run is always
followed by a literal character that is outside the class, so regex
backtracking can never produce a shorter run, and re.search scanning is
left-to-right over start positions. -/

/-- Attempt of the Windows regex at one start position:
match the literal text, a nonempty digit run, then the literal tail,
returning the captured digit run. -/
def searchWinAt (cs : List Char) : Option (List Char) :=
  match dropLead (("Average = ").data) cs with
  | none => none
  | some r1 =>
    let ds := r1.takeWhile Char.isDigit
    let r2 := r1.dropWhile Char.isDigit
    if ds.isEmpty then none
    else
      match dropLead (("ms").data) r2 with
      | none => none
      | some _ => some ds

/-- re.search of the Windows average-latency pattern over all start
positions, leftmost match first. -/
def searchWin : List Char → Option (List Char)
  | [] => none
  | c :: rest =>
    match searchWinAt (c :: rest) with
    | some ds => some ds
    | none => searchWin rest

/-- parse_windows_ping: search the Windows pattern and convert the
captured digits with float(); a pure digit run never fails conversion,
so the function is total. -/
def parse_windows_ping (output : String) : Option ℚ :=
  (searchWin output.data).map (fun ds => (natOfDigits ds : ℚ))

/-- Attempt of the Unix rtt-summary regex at one start position: literal
header, four nonempty digit-or-dot runs separated by slashes, then the
literal tail; the second run is the captured average. -/
def searchUnixAt (cs : List Char) : Option (List Char) :=
  match dropLead (("rtt min/avg/max/mdev = ").data) cs with
  | none => none
  | some r1 =>
    let d1 := r1.takeWhile isNumDot
    let r2 := r1.dropWhile isNumDot
    if d1.isEmpty then none
    else
      match r2 with
      | '/' :: r3 =>
        let d2 := r3.takeWhile isNumDot
        let r4 := r3.dropWhile isNumDot
        if d2.isEmpty then none
        else
          match r4 with
          | '/' :: r5 =>
            let d3 := r5.takeWhile isNumDot
            let r6 := r5.dropWhile isNumDot
            if d3.isEmpty then none
            else
              match r6 with
              | '/' :: r7 =>
                let d4 := r7.takeWhile isNumDot
                let r8 := r7.dropWhile isNumDot
                if d4.isEmpty then none
                else
                  match dropLead ((" ms").data) r8 with
                  | none => none
                  | some _ => some d2
              | _ => none
          | _ => none
      | _ => none

/-- re.search of the Unix rtt-summary pattern over all start positions. -/
def searchUnix : List Char → Option (List Char)
  | [] => none
  | c :: rest =>
    match searchUnixAt (c :: rest) with
    | some ds => some ds
    | none => searchUnix rest

/-- Fallback scan of parse_unix_ping: for each line containing both
substrings avg and =, take the segment between the first and second =
(Python split on = then index 1), strip it, split on slash, and if at
least two tokens result convert the second with float(); conversion
failure continues with the next line. -/
def unixFallbackLines : List (List Char) → Option ℚ
  | [] => none
  | line :: rest =>
    if containsSub (("avg").data) line && containsSub (("=").data) line then
      let seg := (pySplit '=' line).getD 1 []
      let parts := pySplit '/' (pyStrip seg)
      if 2 ≤ parts.length then
        match pyFloat (parts.getD 1 []) with
        | some q => some q
        | none => unixFallbackLines rest
      else unixFallbackLines rest
    else unixFallbackLines rest

/-- parse_unix_ping: primary regex first; on a match, float() of the
captured group is returned, and a malformed capture (two dots) raises an
uncaught ValueError, modelled as Except.error.  Without a primary match
the line-scanning fallback runs, where conversion errors are caught. -/
def parse_unix_ping (output : String) : Except Unit (Option ℚ) :=
  match searchUnix output.data with
  | some tok =>
    match tokenFloat tok with
    | some q => Except.ok (some q)
    | none => Except.error ()
  | none => Except.ok (unixFallbackLines (pySplitlines output.data))

/-! ## ping_test (src/server_manager.py lines 47-104) -/

/-- Outcome of the ping subprocess invocation, the oracle for
subprocess.run: normal completion with exit code and both streams, or
one of the exceptional outcomes the code catches. -/
inductive PingProc
  | completed (returncode : ℤ) (stdout : String) (stderr : String)
  | timedOutExc
  | notFound
  | otherExc
deriving DecidableEq

/-- ping_test: empty target short-circuits to none; a completed process
with nonzero exit code gives none; otherwise the platform parser runs on
stdout (an uncaught ValueError from the Unix parser is swallowed by the
final except clause); every exceptional subprocess outcome gives none.
The ping count and timeout only shape the external command line, which
the oracle already accounts for.  The function is total: no condition
escapes to the caller. -/
def ping_test (system : String) (proc : PingProc) (target_ip : String) : Option ℚ :=
  if target_ip = ("") then none
  else
    match proc with
    | PingProc.completed rc out _ =>
      if rc ≠ 0 then none
      else if system = ("windows") then parse_windows_ping out
      else
        match parse_unix_ping out with
        | Except.ok v => v
        | Except.error _ => none
    | PingProc.timedOutExc => none
    | PingProc.notFound => none
    | PingProc.otherExc => none

instance {ε α : Type} [DecidableEq ε] [DecidableEq α] : DecidableEq (Except ε α) := fun x y =>
  match x, y with
  | Except.ok a, Except.ok b =>
    if h : a = b then isTrue (by rw [h]) else isFalse (by simp [h])
  | Except.error e, Except.error f =>
    if h : e = f then isTrue (by rw [h]) else isFalse (by simp [h])
  | Except.ok _, Except.error _ => isFalse (by simp)
  | Except.error _, Except.ok _ => isFalse (by simp)

/-! ## Server data model (dictionaries of relays.json, restricted to the
fields the code reads) -/

/-- Value of the endpoint_data field of a relay dictionary: absent, a
dict (only its key set matters to the code), a string, or any other
JSON value. -/
inductive EndpointData
  | absent
  | dict (keys : List String)
  | str (v : String)
  | other
deriving DecidableEq

/-- One relay dictionary, restricted to the fields server_manager.py
reads or writes; absent keys are modelled by none. -/
structure Server where
  hostname : Option String
  ipv4_addr_in : Option String
  endpoint_data : EndpointData
  country : Option String
  country_code : Option String
  city : Option String
  city_code : Option String
deriving DecidableEq

/-- One city dictionary. -/
structure City where
  name : Option String
  code : Option String
  relays : List Server
deriving DecidableEq

/-- One country dictionary. -/
structure Country where
  name : Option String
  code : Option String
  cities : List City
deriving DecidableEq

/-- The top-level relays.json dictionary. -/
structure ServerData where
  countries : List Country
deriving DecidableEq

/-- Python truthiness test `not s` for an optional string: true when the
key is absent or the value is the empty string. -/
def pyFalsyStr : Option String → Bool
  | none => true
  | some s => s = ("")

/-- Latency result dictionary produced per server. -/
structure TSResult where
  server : Server
  latency : Option ℚ
deriving DecidableEq

/-- get_server_latency: a server without a non-empty ipv4_addr_in gets
latency none without any ping; otherwise the ping oracle (abstracting
ping_test and the subprocess behind it) is consulted with half the main
timeout, as in the code. -/
def get_server_latency (ping : String → ℕ → ℕ → Option ℚ) (server : Server)
    (ping_count timeout_sec : ℕ) : TSResult :=
  match server.ipv4_addr_in with
  | none => ⟨server, none⟩
  | some ip => if ip = ("") then ⟨server, none⟩ else ⟨server, ping ip ping_count (timeout_sec / 2)⟩

/-! ## Protocol filtering and extraction (src/server_manager.py lines 457-541) -/

/-- Python str.lower() restricted to ASCII letters, the only characters
protocol names contain. -/
def pyLowerChar (c : Char) : Char :=
  if ('A' ≤ c ∧ c ≤ 'Z') then Char.ofNat (c.toNat + 32) else c

/-- ASCII lower-casing of a string. -/
def pyLower (s : String) : String := ⟨s.data.map pyLowerChar⟩

/-- is_wireguard test of filter_servers_by_protocol: endpoint_data is a
dict containing the key wireguard. -/
def isWireguardServer (s : Server) : Bool :=
  match s.endpoint_data with
  | EndpointData.dict keys => keys.contains ("wireguard")
  | _ => false

/-- is_openvpn test of filter_servers_by_protocol: endpoint_data is the
string openvpn. -/
def isOpenvpnServer (s : Server) : Bool :=
  match s.endpoint_data with
  | EndpointData.str v => v = ("openvpn")
  | _ => false

/-- filter_servers_by_protocol: a falsy protocol (absent or empty) or the
value both in any case returns the input unchanged; otherwise the list is
filtered by the matching endpoint_data test, and an unknown protocol
keeps nothing. -/
def filter_servers_by_protocol (servers : List Server) (protocol : Option String) :
    List Server :=
  match protocol with
  | none => servers
  | some p =>
    if p = ("") || pyLower p = ("both") then servers
    else
      let pf := pyLower p
      if pf = ("wireguard") then servers.filter isWireguardServer
      else if pf = ("openvpn") then servers.filter isOpenvpnServer
      else []

/-- _add_location_info: write the four location fields into every server
of the list. -/
def _add_location_info (servers : List Server) (cn cc cin cic : String) : List Server :=
  servers.map fun s =>
    { s with country := some cn, country_code := some cc, city := some cin, city_code := some cic }

/-- The relays of one city annotated with its and its country's location
fields, with the default names the code substitutes for missing keys. -/
def locRelays (c : Country) (ci : City) : List Server :=
  _add_location_info ci.relays (c.name.getD ("Unknown Country")) (c.code.getD ("??"))
    (ci.name.getD ("Unknown City")) (ci.code.getD ("???"))

/-- get_all_servers: missing data or an empty country list give an empty
result; otherwise all relays are accumulated city by city (the nested
for loops become nested left folds over one growing list) and the
protocol filter is applied at the end. -/
def get_all_servers (data : Option ServerData) (protocol : Option String) : List Server :=
  match data with
  | none => []
  | some d =>
    match d.countries with
    | [] => []
    | _ =>
      let all := d.countries.foldl
        (fun acc c => c.cities.foldl (fun acc2 ci => acc2 ++ locRelays c ci) acc) []
      filter_servers_by_protocol all protocol

/-- Every extracted relay with location info, written directly as a flat
traversal; used to state that extraction with no protocol is unfiltered. -/
def allRelaysLocated (d : ServerData) : List Server :=
  d.countries.flatMap (fun c => c.cities.flatMap (locRelays c))

/-! ## Throughput computation and the ping-pong speed probe
(src/server_manager.py lines 260-453)

The socket and the clock are modelled by explicit event traces: each
connect/send/recv call consumes the next event of its trace, which
carries the bytes moved and the monotonic time the call took.  A recv
that exhausts the remaining round budget is a timeout event, placing the
clock exactly at the round deadline, as settimeout(remaining) does.  The
stop event is a threading.Event set at most once; it is modelled by the
optional time from which is_set() observes true. -/

/-- calculate_mbps: guard against tiny durations and empty transfers,
otherwise bits over megaseconds; 0.01 is the float literal of the guard. -/
def calculate_mbps (bytes_transferred : ℤ) (duration_sec : ℚ) : ℚ :=
  if duration_sec ≤ 1/100 ∨ bytes_transferred ≤ 0 then 0
  else ((bytes_transferred : ℚ) * 8) / (duration_sec * 1000000)

/-- Round-trip timeout of the ping-pong round loop (seconds). -/
def ROUND_TIMEOUT : ℚ := 2

/-- Observation of stop_event.is_set() at a given monotonic time. -/
def stopSet (stopAt : Option ℚ) (now : ℚ) : Bool :=
  match stopAt with
  | none => false
  | some t => decide (t ≤ now)

/-- Outcome of one sock.send call: n bytes accepted after dt seconds
(n = 0 is the broken-connection case the code treats as fatal), or a
socket error raised after dt seconds. -/
inductive SendEv
  | ok (n : ℕ) (dt : ℚ)
  | err (dt : ℚ)
deriving DecidableEq

/-- Outcome of one sock.recv call: a chunk of n bytes after dt seconds
(n = 0 is the peer-closed case, raised as a socket error), a timeout
after the full remaining round budget, or a socket error after dt
seconds. -/
inductive RecvEv
  | chunk (n : ℕ) (dt : ℚ)
  | tmo
  | err (dt : ℚ)
deriving DecidableEq

/-- How the receive phase of a round ended: by its own loop conditions
(full block or deadline observed), by the stop event (StopIteration), by
sock.recv raising socket.timeout, or by a socket error (including the
peer closing). -/
inductive RecvExit
  | normal
  | stopped
  | timedOut
  | failed
deriving DecidableEq

/-- State returned by the receive phase: exit kind, unconsumed recv
events, clock, and the bytes received this round. -/
structure RecvRes where
  exitKind : RecvExit
  rest : List RecvEv
  now : ℚ
  got : ℕ
deriving DecidableEq

/-- The inner receive loop of _execute_socket_ping_pong: while the block
is incomplete and the deadline has not passed, check the stop event,
then issue one recv with the remaining budget as its timeout. -/
def recvPhase (stopAt : Option ℚ) (expected : ℕ) (deadline : ℚ) :
    List RecvEv → ℚ → ℕ → RecvRes
  | evs, now, got =>
    if expected ≤ got ∨ deadline ≤ now then ⟨RecvExit.normal, evs, now, got⟩
    else if stopSet stopAt now then ⟨RecvExit.stopped, evs, now, got⟩
    else
      match evs with
      | [] => ⟨RecvExit.normal, [], now, got⟩
      | RecvEv.chunk n dt :: rest =>
        if n = 0 then ⟨RecvExit.failed, rest, now + dt, got⟩
        else recvPhase stopAt expected deadline rest (now + dt) (got + n)
      | RecvEv.tmo :: rest => ⟨RecvExit.timedOut, rest, deadline, got⟩
      | RecvEv.err dt :: rest => ⟨RecvExit.failed, rest, now + dt, got⟩

/-- Accumulated state of the ping-pong round loop: total bytes sent and
received, successful exchanges, round-trip samples, clock, and whether
loop_error was set. -/
structure LoopSt where
  sent : ℕ
  recvd : ℕ
  exch : ℕ
  rtts : List ℚ
  now : ℚ
  errored : Bool
deriving DecidableEq

/-- The outer round loop of _execute_socket_ping_pong.  Each round sends
the block (zero bytes accepted or a send error is fatal), then runs the
receive phase.  A normal receive-phase exit accumulates the round into
the totals and samples; a stop or socket error ends the loop; a
socket.timeout raised by recv jumps to the except clause, so the round's
partial bytes are not accumulated, and the loop moves on to the next
round.  An exhausted send trace ends the loop (the environment shows no
further events). -/
def pingPongLoop (stopAt : Option ℚ) (expected : ℕ) (endTime : ℚ) :
    List SendEv → List RecvEv → LoopSt → LoopSt
  | sends, recvs, st =>
    if endTime ≤ st.now then st
    else if stopSet stopAt st.now then { st with errored := true }
    else
      match sends with
      | [] => st
      | SendEv.err dt :: _ => { st with now := st.now + dt, errored := true }
      | SendEv.ok n dt :: srest =>
        if n = 0 then { st with now := st.now + dt, errored := true }
        else
          let roundStart := st.now
          let now1 := st.now + dt
          let sent1 := st.sent + n
          let deadline := now1 + ROUND_TIMEOUT
          let r := recvPhase stopAt expected deadline recvs now1 0
          match r.exitKind with
          | RecvExit.stopped => { st with sent := sent1, now := r.now, errored := true }
          | RecvExit.failed => { st with sent := sent1, now := r.now, errored := true }
          | RecvExit.timedOut =>
            pingPongLoop stopAt expected endTime srest r.rest
              { st with sent := sent1, now := r.now }
          | RecvExit.normal =>
            pingPongLoop stopAt expected endTime srest r.rest
              { st with
                sent := sent1
                recvd := st.recvd + r.got
                exch := st.exch + (if 0 < r.got then 1 else 0)
                rtts := st.rtts ++ [r.now - roundStart]
                now := r.now }

/-- Outcome of the connect call: success, timeout or error, each after
dt seconds. -/
inductive ConnEv
  | ok (dt : ℚ)
  | tmo (dt : ℚ)
  | err (dt : ℚ)
deriving DecidableEq

/-- The network behaviour one session would observe on one port. -/
structure SessionNet where
  conn : ConnEv
  sends : List SendEv
  recvs : List RecvEv
deriving DecidableEq

/-- Result of one _execute_socket_ping_pong session: the returned
(download, upload) pair and the clock when the session ended. -/
structure ExecRes where
  download : Option ℚ
  upload : Option ℚ
  endT : ℚ
deriving DecidableEq

/-- _execute_socket_ping_pong: a failed connect leaves both speeds at
their initial None; after a successful connect the round loop runs for
the configured duration and both speeds are always assigned from
calculate_mbps over the loop's elapsed time, whatever ended the loop. -/
def execPingPong (chunk_size : ℕ) (duration : ℚ) (stopAt : Option ℚ)
    (net : SessionNet) (startT : ℚ) : ExecRes :=
  match net.conn with
  | ConnEv.tmo dt => ⟨none, none, startT + dt⟩
  | ConnEv.err dt => ⟨none, none, startT + dt⟩
  | ConnEv.ok dt =>
    let t0 := startT + dt
    let fin := pingPongLoop stopAt chunk_size (t0 + duration) net.sends net.recvs
      ⟨0, 0, 0, [], t0, false⟩
    let elapsed := fin.now - t0
    ⟨some (calculate_mbps (fin.recvd : ℤ) elapsed),
     some (calculate_mbps (fin.sent : ℤ) elapsed), fin.now⟩

/-- The port loop of run_socket_ping_pong_test: each attempt pairs a
port with the network behaviour a session on it would observe; the stop
event is checked before each attempt, and the first session returning a
non-None download or upload value is returned. -/
def wrapperLoop (chunk_size : ℕ) (duration : ℚ) (stopAt : Option ℚ) :
    List (ℕ × SessionNet) → ℚ → Option ℚ × Option ℚ
  | [], _ => (none, none)
  | (_, net) :: rest, now =>
    if stopSet stopAt now then (none, none)
    else
      let r := execPingPong chunk_size duration stopAt net now
      if r.download.isSome || r.upload.isSome then (r.download, r.upload)
      else wrapperLoop chunk_size duration stopAt rest r.endT

/-- run_socket_ping_pong_test: a server without a non-empty ipv4_addr_in
returns (None, None) without touching the network; otherwise the ports
are tried in order. -/
def run_socket_ping_pong_test (server : Server) (attempts : List (ℕ × SessionNet))
    (chunk_size : ℕ) (duration : ℚ) (stopAt : Option ℚ) (startT : ℚ) :
    Option ℚ × Option ℚ :=
  if pyFalsyStr server.ipv4_addr_in then (none, none)
  else wrapperLoop chunk_size duration stopAt attempts startT

/-- Did the session's connect succeed? -/
def connOkB (net : SessionNet) : Bool :=
  match net.conn with
  | ConnEv.ok _ => true
  | _ => false

/-- Clock value after a list of attempts has been consumed without a
returned result. -/
def afterT (chunk_size : ℕ) (duration : ℚ) : List (ℕ × SessionNet) → ℚ → ℚ
  | [], t => t
  | (_, net) :: rest, t =>
    afterT chunk_size duration rest (execPingPong chunk_size duration none net t).endT

/-! ## The concurrent worker pool of test_servers
(src/server_manager.py lines 123-258)

The pool is given a small-step interleaving semantics.  A state holds
the server queue, the unfinished-task counter of the queue, the result
queue, the completed counter, the two control flags, the program point
of every worker thread, and the coordinator's program point; ghost lists
record the targets drained by the coordinator after a stop and the
targets a worker discarded at its post-dequeue stop check.  A schedule
is a list of labels, each letting one thread take its next atomic step
or letting the environment set a control flag; running the machine is a
fold of the step function over the schedule. -/

/-- Program point of one worker thread: at the top of its loop, holding
a dequeued server before the post-dequeue stop check, about to probe and
publish, or exited. -/
inductive WorkerPC
  | loopTop
  | got (s : Server)
  | processing (s : Server)
  | done
deriving DecidableEq

/-- Program point of the coordinator (the thread running test_servers):
monitoring the queue, draining it after a stop, collecting results, or
returned. -/
inductive MainPC
  | monitor
  | draining
  | collecting
  | finished
deriving DecidableEq

/-- One scheduling choice: a step of worker i, a step of the
coordinator, or the environment setting or clearing a control flag. -/
inductive TSLabel
  | w (i : ℕ)
  | m
  | sigStop
  | sigPause
  | sigResume
deriving DecidableEq

/-- Run parameters of test_servers: the worker bound, the number of
unrelated live threads in the process (counted by
threading.active_count() beyond this pool and the main thread), the
latency oracle, and the ping parameters. -/
structure TSConfig where
  maxWorkers : ℕ
  ambient : ℕ
  ping : String → ℕ → ℕ → Option ℚ
  ping_count : ℕ
  timeout_sec : ℕ

/-- State of one run of test_servers. -/
structure TSState where
  queue : List Server
  unfinished : ℕ
  resultsQ : List TSResult
  completed : ℕ
  stop : Bool
  pause : Bool
  workers : List WorkerPC
  drained : List Server
  discarded : List Server
  collected : List TSResult
  mainPC : MainPC
deriving DecidableEq

/-- Number of worker threads of this pool that are still alive. -/
def liveCount (ws : List WorkerPC) : ℕ :=
  (ws.filter (fun pc => decide (pc ≠ WorkerPC.done))).length

/-- One atomic step of worker i currently at program point pc,
translating the worker closure: the loop condition checks stop; pause
idles; a dequeue either yields a server or, on an empty queue, exits
exactly when threading.active_count() — the live workers plus the main
thread plus the ambient threads — is at most max_workers + 1; after a
dequeue a set stop discards the server (task_done without a result) and
exits; otherwise the probe runs and the result is published, the
completed counter advances, and task_done is called. -/
def workerStep (cfg : TSConfig) (st : TSState) (i : ℕ) (pc : WorkerPC) : TSState :=
  match pc with
  | WorkerPC.done => st
  | WorkerPC.loopTop =>
    if st.stop then { st with workers := st.workers.set i WorkerPC.done }
    else if st.pause then st
    else
      match st.queue with
      | s :: rest => { st with queue := rest, workers := st.workers.set i (WorkerPC.got s) }
      | [] =>
        if liveCount st.workers + 1 + cfg.ambient ≤ cfg.maxWorkers + 1
        then { st with workers := st.workers.set i WorkerPC.done }
        else st
  | WorkerPC.got s =>
    if st.stop then
      { st with
        unfinished := st.unfinished - 1
        discarded := st.discarded ++ [s]
        workers := st.workers.set i WorkerPC.done }
    else { st with workers := st.workers.set i (WorkerPC.processing s) }
  | WorkerPC.processing s =>
    { st with
      resultsQ := st.resultsQ ++ [get_server_latency cfg.ping s cfg.ping_count cfg.timeout_sec]
      completed := st.completed + 1
      unfinished := st.unfinished - 1
      workers := st.workers.set i WorkerPC.loopTop }

/-- One atomic step of the coordinator: the monitor loop breaks to
collection when the unfinished count reaches zero and moves to draining
when stop is observed; draining removes queue entries one by one,
calling task_done on each (these are the skipped targets); collection
moves results from the result queue into the returned list and then the
call returns. -/
def mainStep (st : TSState) : TSState :=
  match st.mainPC with
  | MainPC.monitor =>
    if st.stop then { st with mainPC := MainPC.draining }
    else if st.unfinished = 0 then { st with mainPC := MainPC.collecting }
    else st
  | MainPC.draining =>
    match st.queue with
    | [] => { st with mainPC := MainPC.collecting }
    | s :: rest =>
      { st with
        queue := rest
        unfinished := st.unfinished - 1
        drained := st.drained ++ [s] }
  | MainPC.collecting =>
    match st.resultsQ with
    | [] => { st with mainPC := MainPC.finished }
    | r :: rest => { st with resultsQ := rest, collected := st.collected ++ [r] }
  | MainPC.finished => st

/-- The step function over scheduling labels.  A label naming a missing
worker is a no-op. -/
def stepTS (cfg : TSConfig) (st : TSState) : TSLabel → TSState
  | TSLabel.w i =>
    match st.workers.get? i with
    | none => st
    | some pc => workerStep cfg st i pc
  | TSLabel.m => mainStep st
  | TSLabel.sigStop => { st with stop := true }
  | TSLabel.sigPause => { st with pause := true }
  | TSLabel.sigResume => { st with pause := false }

/-- Run the machine over a schedule. -/
def runTS (cfg : TSConfig) (st : TSState) (labels : List TSLabel) : TSState :=
  labels.foldl (stepTS cfg) st

/-- Initial state of a run: all targets enqueued (unfinished equals the
queue length), min(max_workers, total) workers at their loop tops, the
coordinator monitoring, flags clear. -/
def initTS (cfg : TSConfig) (targets : List Server) : TSState :=
  ⟨targets, targets.length, [], 0, false, false,
   List.replicate (min cfg.maxWorkers targets.length) WorkerPC.loopTop,
   [], [], [], MainPC.monitor⟩

/-- Sort key of the final sort: the latency, with a missing latency
treated as plus infinity. -/
def latKey (r : TSResult) : WithTop ℚ :=
  match r.latency with
  | some q => (q : WithTop ℚ)
  | none => ⊤

/-- Comparison used by the final sort. -/
def resultLE (a b : TSResult) : Prop := latKey a ≤ latKey b

instance : DecidableRel resultLE := fun a b =>
  inferInstanceAs (Decidable (latKey a ≤ latKey b))

instance : IsTotal TSResult resultLE := ⟨fun a b => le_total (latKey a) (latKey b)⟩

instance : IsTrans TSResult resultLE := ⟨fun _ _ _ h1 h2 => le_trans h1 h2⟩

/-- The final ascending stable sort of the collected results;
extensionally equal to Python's stable list.sort with the same key. -/
def sortResults (l : List TSResult) : List TSResult := l.insertionSort resultLE

/-- The list test_servers returns for a given schedule: empty input
short-circuits, otherwise the collected results of the run, sorted. -/
def test_serversList (cfg : TSConfig) (targets : List Server) (labels : List TSLabel) :
    List TSResult :=
  if targets.length = 0 then []
  else sortResults (runTS cfg (initTS cfg targets) labels).collected

/-- In-flight contribution of one worker program point: the server it
currently holds, if any. -/
def inflight : WorkerPC → Multiset Server
  | WorkerPC.got s => {s}
  | WorkerPC.processing s => {s}
  | _ => 0

/-- Multiset of servers currently held by workers. -/
def inflightAll (ws : List WorkerPC) : Multiset Server := (ws.map inflight).sum

/-- Every submitted target is in exactly one place: published and
collected, published and still queued in the result queue, waiting in
the server queue, held by a worker, drained by the coordinator, or
discarded by a worker's post-dequeue stop check. -/
def footprint (st : TSState) : Multiset Server :=
  ((st.collected.map TSResult.server : List Server) : Multiset Server)
  + ((st.resultsQ.map TSResult.server : List Server) : Multiset Server)
  + (st.queue : Multiset Server)
  + inflightAll st.workers
  + (st.drained : Multiset Server)
  + (st.discarded : Multiset Server)

/-- The unfinished-task counter always counts the queued plus in-flight
targets. -/
def unfinOK (st : TSState) : Prop :=
  st.unfinished = st.queue.length + Multiset.card (inflightAll st.workers)

/-- Inductive invariant of runs whose schedule never sets the stop flag:
the flag stays clear, nothing is drained or discarded, the coordinator
never drains, the unfinished counter is accurate, collection only starts
once the unfinished counter reached zero, the call only returns once the
result queue is empty, and no target is lost. -/
def noStopInv (targets : List Server) (st : TSState) : Prop :=
  st.stop = false
  ∧ st.drained = []
  ∧ st.discarded = []
  ∧ st.mainPC ≠ MainPC.draining
  ∧ unfinOK st
  ∧ ((st.mainPC = MainPC.collecting ∨ st.mainPC = MainPC.finished) → st.unfinished = 0)
  ∧ (st.mainPC = MainPC.finished → st.resultsQ = [])
  ∧ footprint st = (targets : Multiset Server)

/-! ## First sanity theorems for the parsers -/

/-- C7: parse_unix_ping matches the rtt summary pattern and returns the
second (avg) field; when the pattern is absent it falls back to scanning
lines containing both avg and =, splitting on slash and taking the
second token; on the given concrete output it yields 23.4. -/
theorem parse_unix_ping_c7 :
    parse_unix_ping ("rtt min/avg/max/mdev = 10.0/23.4/40.0/5.0 ms") = Except.ok (some (117/5))
    ∧ (∀ out ds, searchUnix out.data = some ds →
        parse_unix_ping out = (tokenFloat ds).elim (Except.error ()) (fun q => Except.ok (some q)))
    ∧ (∀ out, searchUnix out.data = none →
        parse_unix_ping out = Except.ok (unixFallbackLines (pySplitlines out.data))) := by
  refine ⟨by with_unfolding_all rfl, ?_, ?_⟩
  · intro out ds h
    unfold parse_unix_ping
    rw [h]
    cases h2 : tokenFloat ds <;> simp [h2]
  · intro out h
    unfold parse_unix_ping
    rw [h]

/-- Witness for C7: the theorem applied at the concrete output, the
pattern hypothesis discharged by evaluation. -/
theorem parse_unix_ping_c7_witness :
    parse_unix_ping ("rtt min/avg/max/mdev = 10.0/23.4/40.0/5.0 ms")
      = (tokenFloat (("23.4").data)).elim (Except.error ())
          (fun q => Except.ok (some q)) :=
  parse_unix_ping_c7.2.1 ("rtt min/avg/max/mdev = 10.0/23.4/40.0/5.0 ms") (("23.4").data)
    (by decide)

/-- C6: parse_windows_ping is exactly the search for the Windows average
pattern with the captured digits converted to a number, and on the
concrete output it yields 15.0. -/
theorem parse_windows_ping_c6 :
    parse_windows_ping ("Average = 15ms") = some 15
    ∧ ∀ out, parse_windows_ping out
        = (searchWin out.data).map (fun ds => (natOfDigits ds : ℚ)) :=
  ⟨by decide, fun _ => rfl⟩

/-- C5: ping_test degrades every failure to none: nonzero exit code,
subprocess timeout, missing ping executable, any other exception, and
unparsable output on either platform; being a total Lean function into
Option it cannot raise. -/
theorem ping_test_c5 :
    (∀ sys ip rc out err, rc ≠ 0 → ping_test sys (PingProc.completed rc out err) ip = none)
    ∧ (∀ sys ip, ping_test sys PingProc.timedOutExc ip = none)
    ∧ (∀ sys ip, ping_test sys PingProc.notFound ip = none)
    ∧ (∀ sys ip, ping_test sys PingProc.otherExc ip = none)
    ∧ (∀ ip out err, parse_windows_ping out = none →
        ping_test ("windows") (PingProc.completed 0 out err) ip = none)
    ∧ (∀ sys ip out err, sys ≠ ("windows") →
        (parse_unix_ping out = Except.ok none ∨ parse_unix_ping out = Except.error ()) →
        ping_test sys (PingProc.completed 0 out err) ip = none) := by
  refine ⟨?_, ?_, ?_, ?_, ?_, ?_⟩
  · intro sys ip rc out err h
    unfold ping_test
    split
    · rfl
    · simp [h]
  · intro sys ip
    unfold ping_test
    split <;> rfl
  · intro sys ip
    unfold ping_test
    split <;> rfl
  · intro sys ip
    unfold ping_test
    split <;> rfl
  · intro ip out err h
    unfold ping_test
    split
    · rfl
    · simp [h]
  · intro sys ip out err hsys hp
    unfold ping_test
    split
    · rfl
    · simp only [ne_eq, not_true_eq_false, reduceIte, if_neg hsys]
      rcases hp with h | h <;> simp [h]

/-- Witness for C5: a nonzero exit code at a concrete invocation. -/
theorem ping_test_c5_witness :
    ping_test ("linux") (PingProc.completed 1 ("") ("")) ("1.2.3.4") = none :=
  ping_test_c5.1 ("linux") ("1.2.3.4") 1 ("") ("") (by decide)

/-! ## Throughput formula (C8) -/

/-- C8: calculate_mbps is bits over megaseconds whenever the duration
exceeds 0.01 seconds and the byte count is positive, it is 0.0 whenever
the duration is at most 0.01 seconds or the byte count is zero, and the
concrete instance gives 8.0; as a total function on ℚ it can raise no
division error. -/
theorem calculate_mbps_c8 :
    (∀ (b : ℤ) (d : ℚ), 1/100 < d → 0 < b →
        calculate_mbps b d = ((b : ℚ) * 8) / (d * 1000000))
    ∧ (∀ (b : ℤ) (d : ℚ), d ≤ 1/100 ∨ b = 0 → calculate_mbps b d = 0)
    ∧ calculate_mbps 1000000 1 = 8 := by
  refine ⟨?_, ?_, ?_⟩
  · intro b d hd hb
    unfold calculate_mbps
    rw [if_neg]
    push_neg
    exact ⟨hd, hb⟩
  · intro b d h
    unfold calculate_mbps
    rw [if_pos]
    rcases h with h | h
    · exact Or.inl h
    · exact Or.inr (le_of_eq h)
  · unfold calculate_mbps
    norm_num

/-- Witness for C8: the formula branch applied at one concrete input. -/
theorem calculate_mbps_c8_witness :
    calculate_mbps 1000000 1 = (((1000000 : ℤ) : ℚ) * 8) / (1 * 1000000) :=
  calculate_mbps_c8.1 1000000 1 (by norm_num) (by norm_num)

/-! ## Protocol filter identity (C9) -/

/-- Nested accumulation into one growing list is flat traversal. -/
theorem foldl_append_flatMap {α β : Type} (f : α → List β) :
    ∀ (l : List α) (init : List β),
      l.foldl (fun acc x => acc ++ f x) init = init ++ l.flatMap f := by
  intro l
  induction l with
  | nil => intro init; simp
  | cons a t ih =>
    intro init
    simp only [List.foldl_cons, List.flatMap_cons]
    rw [ih, List.append_assoc]

/-- The doubly nested accumulation of get_all_servers is the doubly flat
traversal. -/
theorem foldl_countries_flatMap :
    ∀ (cs : List Country) (init : List Server),
      cs.foldl (fun acc c => c.cities.foldl (fun acc2 ci => acc2 ++ locRelays c ci) acc) init
        = init ++ cs.flatMap (fun c => c.cities.flatMap (locRelays c)) := by
  intro cs
  induction cs with
  | nil => intro init; simp
  | cons c t ih =>
    intro init
    simp only [List.foldl_cons, List.flatMap_cons]
    rw [foldl_append_flatMap, ih, List.append_assoc]

/-- C9: a protocol of None, or equal to both in any letter case, makes
filter_servers_by_protocol the identity on the server list, and
get_all_servers with no protocol returns every extracted relay
unfiltered. -/
theorem filter_identity_c9 :
    (∀ servers, filter_servers_by_protocol servers none = servers)
    ∧ (∀ servers p, pyLower p = ("both") →
        filter_servers_by_protocol servers (some p) = servers)
    ∧ (∀ d, get_all_servers (some d) none = allRelaysLocated d) := by
  refine ⟨fun _ => rfl, ?_, ?_⟩
  · intro servers p h
    unfold filter_servers_by_protocol
    simp [h]
  · intro d
    have key : ∀ cs : List Country,
        cs.foldl (fun acc c => c.cities.foldl (fun acc2 ci => acc2 ++ locRelays c ci) acc) []
          = cs.flatMap (fun c => c.cities.flatMap (locRelays c)) := by
      intro cs
      rw [foldl_countries_flatMap, List.nil_append]
    obtain ⟨cs⟩ := d
    cases cs with
    | nil => rfl
    | cons c t => exact key (c :: t)

/-- Witness for C9: the case-insensitive both identity at a concrete
list and protocol spelling. -/
theorem filter_identity_c9_witness :
    filter_servers_by_protocol
        [⟨some ("h1"), some ("10.0.0.1"), EndpointData.str ("openvpn"),
          none, none, none, none⟩]
        (some ("BoTh"))
      = [⟨some ("h1"), some ("10.0.0.1"), EndpointData.str ("openvpn"),
          none, none, none, none⟩] :=
  filter_identity_c9.2.1
    [⟨some ("h1"), some ("10.0.0.1"), EndpointData.str ("openvpn"), none, none, none, none⟩]
    ("BoTh") (by decide)

/-! ## Missing address short-circuits (C10) -/

/-- C10: a server without a non-empty ipv4_addr_in makes
get_server_latency return a None latency and run_socket_ping_pong_test
return (None, None), and in both cases the outcome is independent of the
ping oracle and of the network traces: no probe is consulted. -/
theorem missing_ip_c10 :
    (∀ ping ping2 server count tmo, pyFalsyStr server.ipv4_addr_in = true →
        (get_server_latency ping server count tmo).latency = none
        ∧ get_server_latency ping server count tmo = get_server_latency ping2 server count tmo)
    ∧ (∀ server attempts attempts2 chunk duration stopAt t,
        pyFalsyStr server.ipv4_addr_in = true →
        run_socket_ping_pong_test server attempts chunk duration stopAt t = (none, none)
        ∧ run_socket_ping_pong_test server attempts chunk duration stopAt t
            = run_socket_ping_pong_test server attempts2 chunk duration stopAt t) := by
  constructor
  · intro ping ping2 server count tmo h
    cases hip : server.ipv4_addr_in with
    | none =>
      unfold get_server_latency
      rw [hip]
      exact ⟨rfl, rfl⟩
    | some ip =>
      rw [hip] at h
      simp only [pyFalsyStr, decide_eq_true_eq] at h
      unfold get_server_latency
      rw [hip]
      simp [h]
  · intro server attempts attempts2 chunk duration stopAt t h
    unfold run_socket_ping_pong_test
    simp [h]

/-- Witness for C10: a server with no address field at all. -/
theorem missing_ip_c10_witness :
    run_socket_ping_pong_test
        ⟨some ("h2"), none, EndpointData.other, none, none, none, none⟩
        [(443, ⟨ConnEv.ok 0, [], []⟩)] 8192 5 none 0
      = (none, none) :=
  (missing_ip_c10.2
    ⟨some ("h2"), none, EndpointData.other, none, none, none, none⟩
    [(443, ⟨ConnEv.ok 0, [], []⟩)] [] 8192 5 none 0 (by decide)).1

/-! ## The timed-out round drops its partial bytes (C2) -/

/-- C2, behaviour of the code at the failing trace: the session connects,
round one sends the 8192-byte block and receives a 100-byte partial
chunk before the recv call raises socket.timeout at the round deadline,
and round two completes a full echo.  The loop continues past the timed
out round without error (both rounds' sends are counted), but the 100
partial bytes are missing from the received total and the timed-out
round is not counted as an exchange nor sampled, because the
socket.timeout handler skips the accounting that follows the inner
receive loop. -/
theorem pingpong_timeout_c2 :
    (pingPongLoop none 8192 5 [SendEv.ok 8192 0, SendEv.ok 8192 0]
        [RecvEv.chunk 100 (1/10), RecvEv.tmo, RecvEv.chunk 8192 (1/10)]
        ⟨0, 0, 0, [], 0, false⟩).recvd = 8192
    ∧ (pingPongLoop none 8192 5 [SendEv.ok 8192 0, SendEv.ok 8192 0]
        [RecvEv.chunk 100 (1/10), RecvEv.tmo, RecvEv.chunk 8192 (1/10)]
        ⟨0, 0, 0, [], 0, false⟩).exch = 1
    ∧ (pingPongLoop none 8192 5 [SendEv.ok 8192 0, SendEv.ok 8192 0]
        [RecvEv.chunk 100 (1/10), RecvEv.tmo, RecvEv.chunk 8192 (1/10)]
        ⟨0, 0, 0, [], 0, false⟩).sent = 16384
    ∧ (pingPongLoop none 8192 5 [SendEv.ok 8192 0, SendEv.ok 8192 0]
        [RecvEv.chunk 100 (1/10), RecvEv.tmo, RecvEv.chunk 8192 (1/10)]
        ⟨0, 0, 0, [], 0, false⟩).errored = false
    ∧ (pingPongLoop none 8192 5 [SendEv.ok 8192 0, SendEv.ok 8192 0]
        [RecvEv.chunk 100 (1/10), RecvEv.tmo, RecvEv.chunk 8192 (1/10)]
        ⟨0, 0, 0, [], 0, false⟩).rtts = [1/10] := by
  refine ⟨?_, ?_, ?_, ?_, ?_⟩ <;> with_unfolding_all rfl

/-! ## The returned list is sorted with missing latencies last (C4) -/

/-- The final sort produces a list sorted by the latency key. -/
theorem sortResults_sorted (l : List TSResult) : List.Sorted resultLE (sortResults l) :=
  List.sorted_insertionSort resultLE l

/-- C4: whatever run of test_servers produced the collected results, the
returned list is ascending in the latency key (missing latency treated
as plus infinity), and every result with a None latency comes after all
results with a numeric one. -/
theorem test_servers_sorted_c4 (cfg : TSConfig) (targets : List Server)
    (labels : List TSLabel) :
    (test_serversList cfg targets labels).Pairwise
      (fun a b => latKey a ≤ latKey b ∧ (a.latency = none → b.latency = none)) := by
  unfold test_serversList
  split
  · exact List.Pairwise.nil
  · refine (sortResults_sorted _).imp ?_
    intro a b hab
    refine ⟨hab, fun ha => ?_⟩
    have hA : latKey a = ⊤ := by unfold latKey; rw [ha]
    rw [resultLE, hA] at hab
    have hB : latKey b = ⊤ := top_le_iff.mp hab
    cases hb : b.latency with
    | none => rfl
    | some q =>
      unfold latKey at hB
      rw [hb] at hB
      exact absurd hB (WithTop.coe_ne_top)

/-- Witness for C4: the sorted property at one concrete run. -/
theorem test_servers_sorted_c4_witness :
    (test_serversList ⟨1, 0, fun _ _ _ => some 10, 3, 10⟩
        [⟨some ("a"), some ("10.0.0.9"), EndpointData.other, none, none, none, none⟩]
        [TSLabel.w 0, TSLabel.w 0, TSLabel.w 0, TSLabel.m, TSLabel.m, TSLabel.m]).Pairwise
      (fun a b => latKey a ≤ latKey b ∧ (a.latency = none → b.latency = none)) :=
  test_servers_sorted_c4 ⟨1, 0, fun _ _ _ => some 10, 3, 10⟩
    [⟨some ("a"), some ("10.0.0.9"), EndpointData.other, none, none, none, none⟩]
    [TSLabel.w 0, TSLabel.w 0, TSLabel.w 0, TSLabel.m, TSLabel.m, TSLabel.m]

/-! ## Port fallback of the speed-probe wrapper (C3) -/

/-- A session whose connect fails returns the untouched (None, None). -/
theorem execPingPong_connFail (chunk : ℕ) (d : ℚ) (stopAt : Option ℚ)
    (net : SessionNet) (t : ℚ) (h : connOkB net = false) :
    (execPingPong chunk d stopAt net t).download = none
    ∧ (execPingPong chunk d stopAt net t).upload = none := by
  cases hc : net.conn with
  | ok dt => simp [connOkB, hc] at h
  | tmo dt => simp [execPingPong, hc]
  | err dt => simp [execPingPong, hc]

/-- A session whose connect succeeds always assigns both speeds. -/
theorem execPingPong_connOk (chunk : ℕ) (d : ℚ) (stopAt : Option ℚ)
    (net : SessionNet) (t : ℚ) (h : connOkB net = true) :
    (execPingPong chunk d stopAt net t).download.isSome = true
    ∧ (execPingPong chunk d stopAt net t).upload.isSome = true := by
  cases hc : net.conn with
  | ok dt => simp [execPingPong, hc]
  | tmo dt => simp [connOkB, hc] at h
  | err dt => simp [connOkB, hc] at h

/-- Attempts that fail to connect are passed over in order, only moving
the clock. -/
theorem wrapperLoop_skip (chunk : ℕ) (d : ℚ) :
    ∀ (pre tail : List (ℕ × SessionNet)) (t : ℚ),
      (∀ a ∈ pre, connOkB a.2 = false) →
      wrapperLoop chunk d none (pre ++ tail) t
        = wrapperLoop chunk d none tail (afterT chunk d pre t) := by
  intro pre
  induction pre with
  | nil => intro tail t _; rfl
  | cons a pre' ih =>
    intro tail t hall
    obtain ⟨port, net⟩ := a
    have hfail := hall (port, net) (List.mem_cons_self _ _)
    have hdl := execPingPong_connFail chunk d none net t hfail
    show wrapperLoop chunk d none ((port, net) :: (pre' ++ tail)) t = _
    rw [wrapperLoop]
    simp only [stopSet, hdl.1, hdl.2, Option.isSome_none, Bool.or_self, Bool.false_eq_true,
      if_false]
    exact ih tail _ (fun x hx => hall x (List.mem_cons_of_mem _ hx))

/-- The first attempt that connects returns its session's pair. -/
theorem wrapperLoop_firstOk (chunk : ℕ) (d : ℚ) (p : ℕ × SessionNet)
    (rest : List (ℕ × SessionNet)) (t : ℚ) (h : connOkB p.2 = true) :
    wrapperLoop chunk d none (p :: rest) t
      = ((execPingPong chunk d none p.2 t).download,
         (execPingPong chunk d none p.2 t).upload) := by
  obtain ⟨port, net⟩ := p
  have hs := execPingPong_connOk chunk d none net t h
  rw [wrapperLoop]
  simp only [stopSet, hs.1, Bool.true_or, if_true]
  rfl

/-- C3: ports are tried strictly in the given order; the first attempt
whose connect succeeds decides the outcome, its session always yielding
non-None download and upload values (possibly zero) so that no later
port is consulted — the returned pair is that session's, whatever the
remaining ports would have done; if every attempt fails to connect, so
that no session yields a measurement, the wrapper returns (None, None). -/
theorem run_socket_ping_pong_c3 :
    (∀ server attempts chunk d t, pyFalsyStr server.ipv4_addr_in = false →
        (∀ a ∈ attempts, connOkB a.2 = false) →
        run_socket_ping_pong_test server attempts chunk d none t = (none, none))
    ∧ (∀ server pre p rest rest2 chunk d t, pyFalsyStr server.ipv4_addr_in = false →
        (∀ a ∈ pre, connOkB a.2 = false) → connOkB p.2 = true →
        run_socket_ping_pong_test server (pre ++ p :: rest) chunk d none t
          = run_socket_ping_pong_test server (pre ++ p :: rest2) chunk d none t
        ∧ (run_socket_ping_pong_test server (pre ++ p :: rest) chunk d none t).1.isSome = true
        ∧ (run_socket_ping_pong_test server (pre ++ p :: rest) chunk d none t).2.isSome = true
        ∧ run_socket_ping_pong_test server (pre ++ p :: rest) chunk d none t
            = ((execPingPong chunk d none p.2 (afterT chunk d pre t)).download,
               (execPingPong chunk d none p.2 (afterT chunk d pre t)).upload)) := by
  constructor
  · intro server attempts chunk d t hip hall
    unfold run_socket_ping_pong_test
    simp only [hip, Bool.false_eq_true, if_false]
    have hskip := wrapperLoop_skip chunk d attempts [] t hall
    rw [List.append_nil] at hskip
    rw [hskip]
    rfl
  · intro server pre p rest rest2 chunk d t hip hpre hok
    have hm : ∀ r', run_socket_ping_pong_test server (pre ++ p :: r') chunk d none t
        = ((execPingPong chunk d none p.2 (afterT chunk d pre t)).download,
           (execPingPong chunk d none p.2 (afterT chunk d pre t)).upload) := by
      intro r'
      unfold run_socket_ping_pong_test
      simp only [hip, Bool.false_eq_true, if_false]
      rw [wrapperLoop_skip chunk d pre (p :: r') t hpre]
      exact wrapperLoop_firstOk chunk d p r' (afterT chunk d pre t) hok
    refine ⟨by rw [hm rest, hm rest2], ?_, ?_, hm rest⟩
    · rw [hm rest]
      exact (execPingPong_connOk chunk d none p.2 (afterT chunk d pre t) hok).1
    · rw [hm rest]
      exact (execPingPong_connOk chunk d none p.2 (afterT chunk d pre t) hok).2

/-- Witness for C3: a failing first port, a connecting second port, and
an untouched third port, at concrete traces. -/
theorem run_socket_ping_pong_c3_witness :
    run_socket_ping_pong_test
        ⟨some ("h3"), some ("1.2.3.4"), EndpointData.other, none, none, none, none⟩
        ([(443, ⟨ConnEv.err 1, [], []⟩)] ++ (80, ⟨ConnEv.ok 0, [], []⟩)
          :: [(8080, ⟨ConnEv.tmo 0, [], []⟩)]) 8192 5 none 0
      = run_socket_ping_pong_test
        ⟨some ("h3"), some ("1.2.3.4"), EndpointData.other, none, none, none, none⟩
        ([(443, ⟨ConnEv.err 1, [], []⟩)] ++ (80, ⟨ConnEv.ok 0, [], []⟩) :: []) 8192 5 none 0 :=
  (run_socket_ping_pong_c3.2
    ⟨some ("h3"), some ("1.2.3.4"), EndpointData.other, none, none, none, none⟩
    [(443, ⟨ConnEv.err 1, [], []⟩)] (80, ⟨ConnEv.ok 0, [], []⟩)
    [(8080, ⟨ConnEv.tmo 0, [], []⟩)] [] 8192 5 0 (by decide) (by decide) (by decide)).1

/-! ## Conservation of targets in the worker pool (towards C1) -/

/-- Replacing one entry of a list changes its sum by the difference of
the entries, stated addition-only for commutative monoids. -/
theorem list_sum_set {M : Type} [AddCommMonoid M] :
    ∀ (l : List M) (i : ℕ) (a x : M), l.get? i = some a →
      (l.set i x).sum + a = l.sum + x := by
  intro l
  induction l with
  | nil => intro i a x h; simp at h
  | cons b t ih =>
    intro i a x h
    cases i with
    | zero =>
      simp only [List.get?_cons_zero] at h
      injection h with h
      subst h
      simp only [List.set, List.sum_cons]
      abel
    | succ n =>
      simp only [List.get?_cons_succ] at h
      simp only [List.set, List.sum_cons]
      rw [add_assoc, ih n a x h, ← add_assoc]

/-- Moving worker i from pc to pc' changes the in-flight multiset by the
difference of the two contributions. -/
theorem inflightAll_set (ws : List WorkerPC) (i : ℕ) (pc pc' : WorkerPC)
    (h : ws.get? i = some pc) :
    inflightAll (ws.set i pc') + inflight pc = inflightAll ws + inflight pc' := by
  have h2 : (ws.map inflight).get? i = some (inflight pc) := by
    rw [List.get?_map, h]
    rfl
  unfold inflightAll
  rw [List.map_set]
  exact list_sum_set _ i _ _ h2

/-- A worker's own contribution is part of the in-flight multiset. -/
theorem inflight_le_all : ∀ (ws : List WorkerPC) (i : ℕ) (pc : WorkerPC),
    ws.get? i = some pc → inflight pc ≤ inflightAll ws := by
  intro ws
  induction ws with
  | nil => intro i pc h; simp at h
  | cons b t ih =>
    intro i pc h
    cases i with
    | zero =>
      simp only [List.get?_cons_zero] at h
      injection h with h
      subst h
      unfold inflightAll
      simp only [List.map_cons, List.sum_cons]
      exact le_add_of_nonneg_right (Multiset.zero_le _)
    | succ n =>
      simp only [List.get?_cons_succ] at h
      unfold inflightAll
      simp only [List.map_cons, List.sum_cons]
      exact le_add_of_nonneg_left (Multiset.zero_le _) |>.trans
        (le_of_eq rfl) |>.trans (by
          have := ih n pc h
          unfold inflightAll at this
          exact add_le_add_left this _) |>.trans (le_of_eq rfl)

/-- An index that yields an entry is within the list. -/
theorem get_some_lt : ∀ (ws : List WorkerPC) (i : ℕ) (pc : WorkerPC),
    ws.get? i = some pc → i < ws.length := by
  intro ws
  induction ws with
  | nil => intro i pc h; simp at h
  | cons b t ih =>
    intro i pc h
    cases i with
    | zero => simp
    | succ n =>
      simp only [List.get?_cons_succ] at h
      simpa using ih n pc h

/-- Reading back the entry just written. -/
theorem get_set_self : ∀ (ws : List WorkerPC) (i : ℕ) (x : WorkerPC),
    i < ws.length → (ws.set i x).get? i = some x := by
  intro ws
  induction ws with
  | nil => intro i x h; simp at h
  | cons b t ih =>
    intro i x h
    cases i with
    | zero => rfl
    | succ n =>
      simp only [List.set, List.get?_cons_succ]
      exact ih n x (by simpa using h)

/-- The probe result carries the probed server. -/
theorem gsl_server (ping : String → ℕ → ℕ → Option ℚ) (s : Server) (c t : ℕ) :
    (get_server_latency ping s c t).server = s := by
  unfold get_server_latency
  cases h : s.ipv4_addr_in with
  | none => rfl
  | some ip =>
    show (if ip = ("") then ({ server := s, latency := none } : TSResult)
          else { server := s, latency := ping ip c (t / 2) }).server = s
    split <;> rfl

/-- Appending one element to a coerced list adds it to the multiset. -/
theorem ms_append_one (l : List Server) (x : Server) :
    ((l ++ [x] : List Server) : Multiset Server) = (l : Multiset Server) + {x} := by
  rw [← Multiset.coe_add, Multiset.coe_singleton]

/-- A coerced cons splits off its singleton head. -/
theorem ms_cons (x : Server) (l : List Server) :
    ((x :: l : List Server) : Multiset Server) = {x} + (l : Multiset Server) := by
  rw [← Multiset.cons_coe, ← Multiset.singleton_add]

/-- Workers idling at their loop tops hold nothing. -/
theorem inflightAll_replicate (n : ℕ) :
    inflightAll (List.replicate n WorkerPC.loopTop) = 0 := by
  induction n with
  | zero => rfl
  | succ k ih =>
    unfold inflightAll at ih ⊢
    simp only [List.replicate, List.map_cons, List.sum_cons, ih]
    rfl

/-- Every scheduler step conserves the multiset of submitted targets
across the six places a target can be. -/
theorem footprint_step (cfg : TSConfig) (st : TSState) (l : TSLabel) :
    footprint (stepTS cfg st l) = footprint st := by
  cases l with
  | sigStop => rfl
  | sigPause => rfl
  | sigResume => rfl
  | m =>
    show footprint (mainStep st) = footprint st
    unfold mainStep
    split
    · split
      · rfl
      · split <;> rfl
    · split
      · rfl
      · rename_i s rest hq
        simp only [footprint, hq, ms_append_one, ms_cons]
        abel
    · split
      · rfl
      · rename_i r rest hr
        simp only [footprint, hr, List.map_append, List.map_cons, List.map_nil, ms_append_one,
          ms_cons]
        abel
    · rfl
  | w i =>
    show footprint (match st.workers.get? i with
      | none => st
      | some pc => workerStep cfg st i pc) = footprint st
    split
    · rfl
    · rename_i pc hg
      cases pc with
      | done => rfl
      | loopTop =>
        simp only [workerStep]
        split
        · have L := inflightAll_set st.workers i WorkerPC.loopTop WorkerPC.done hg
          simp only [inflight, add_zero] at L
          simp only [footprint, L]
        · split
          · rfl
          · split
            · rename_i s rest hq
              have L := inflightAll_set st.workers i WorkerPC.loopTop (WorkerPC.got s) hg
              simp only [inflight, add_zero] at L
              simp only [footprint, L, hq, ms_cons]
              abel
            · split
              · have L := inflightAll_set st.workers i WorkerPC.loopTop WorkerPC.done hg
                simp only [inflight, add_zero] at L
                simp only [footprint, L]
              · rfl
      | got s =>
        simp only [workerStep]
        split
        · have L := inflightAll_set st.workers i (WorkerPC.got s) WorkerPC.done hg
          simp only [inflight, add_zero] at L
          simp only [footprint, ms_append_one]
          rw [← L]
          abel
        · have L := inflightAll_set st.workers i (WorkerPC.got s) (WorkerPC.processing s) hg
          simp only [inflight] at L
          have L2 := add_right_cancel L
          simp only [footprint, L2]
      | processing s =>
        simp only [workerStep]
        have L := inflightAll_set st.workers i (WorkerPC.processing s) WorkerPC.loopTop hg
        simp only [inflight, add_zero] at L
        simp only [footprint, List.map_append, List.map_cons, List.map_nil, gsl_server,
          ms_append_one]
        rw [← L]
        abel

/-- Conservation over a whole schedule. -/
theorem footprint_run (cfg : TSConfig) :
    ∀ (labels : List TSLabel) (st : TSState),
      footprint (runTS cfg st labels) = footprint st := by
  intro labels
  induction labels with
  | nil => intro st; rfl
  | cons l t ih =>
    intro st
    show footprint (runTS cfg (stepTS cfg st l) t) = footprint st
    rw [ih, footprint_step]

/-- The initial footprint is the submitted target list. -/
theorem footprint_init (cfg : TSConfig) (targets : List Server) :
    footprint (initTS cfg targets) = (targets : Multiset Server) := by
  unfold footprint initTS
  simp only [List.map_nil, inflightAll_replicate]
  simp [Multiset.coe_nil]

/-- Every scheduler step keeps the unfinished-task counter equal to the
queued plus in-flight targets. -/
theorem unfin_step (cfg : TSConfig) (st : TSState) (l : TSLabel) (h : unfinOK st) :
    unfinOK (stepTS cfg st l) := by
  cases l with
  | sigStop => exact h
  | sigPause => exact h
  | sigResume => exact h
  | m =>
    show unfinOK (mainStep st)
    unfold mainStep
    split
    · split
      · exact h
      · split
        · exact h
        · exact h
    · split
      · exact h
      · rename_i s rest hq
        unfold unfinOK at h ⊢
        rw [hq, List.length_cons] at h
        simp only []
        omega
    · split
      · exact h
      · exact h
    · exact h
  | w i =>
    show unfinOK (match st.workers.get? i with
      | none => st
      | some pc => workerStep cfg st i pc)
    split
    · exact h
    · rename_i pc hg
      cases pc with
      | done => exact h
      | loopTop =>
        simp only [workerStep]
        split
        · have L := inflightAll_set st.workers i WorkerPC.loopTop WorkerPC.done hg
          simp only [inflight, add_zero] at L
          unfold unfinOK at h ⊢
          simp only [L]
          exact h
        · split
          · exact h
          · split
            · rename_i s rest hq
              have L := inflightAll_set st.workers i WorkerPC.loopTop (WorkerPC.got s) hg
              simp only [inflight, add_zero] at L
              unfold unfinOK at h ⊢
              rw [hq, List.length_cons] at h
              simp only [L, Multiset.card_add, Multiset.card_singleton]
              omega
            · split
              · have L := inflightAll_set st.workers i WorkerPC.loopTop WorkerPC.done hg
                simp only [inflight, add_zero] at L
                unfold unfinOK at h ⊢
                simp only [L]
                exact h
              · exact h
      | got s =>
        simp only [workerStep]
        split
        · have L := inflightAll_set st.workers i (WorkerPC.got s) WorkerPC.done hg
          simp only [inflight, add_zero] at L
          unfold unfinOK at h ⊢
          rw [← L, Multiset.card_add, Multiset.card_singleton] at h
          simp only []
          omega
        · have L := inflightAll_set st.workers i (WorkerPC.got s) (WorkerPC.processing s) hg
          simp only [inflight] at L
          have L2 := add_right_cancel L
          unfold unfinOK at h ⊢
          simp only [L2]
          exact h
      | processing s =>
        simp only [workerStep]
        have L := inflightAll_set st.workers i (WorkerPC.processing s) WorkerPC.loopTop hg
        simp only [inflight, add_zero] at L
        unfold unfinOK at h ⊢
        rw [← L, Multiset.card_add, Multiset.card_singleton] at h
        simp only []
        omega

/-- No label other than the stop signal can set the stop flag. -/
theorem stop_preserved (cfg : TSConfig) (st : TSState) (l : TSLabel)
    (hl : l ≠ TSLabel.sigStop) (h : st.stop = false) :
    (stepTS cfg st l).stop = false := by
  cases l with
  | sigStop => exact absurd rfl hl
  | sigPause => exact h
  | sigResume => exact h
  | m =>
    show (mainStep st).stop = false
    unfold mainStep
    repeat' split
    all_goals exact h
  | w i =>
    show (match st.workers.get? i with
      | none => st
      | some pc => workerStep cfg st i pc).stop = false
    split
    · exact h
    · rename_i pc hg
      cases pc <;> simp only [workerStep] <;> repeat' split
      all_goals exact h

/-- With the stop flag clear, no worker discards a target. -/
theorem discarded_preserved (cfg : TSConfig) (st : TSState) (l : TSLabel)
    (hstop : st.stop = false) :
    (stepTS cfg st l).discarded = st.discarded := by
  cases l with
  | sigStop => rfl
  | sigPause => rfl
  | sigResume => rfl
  | m =>
    show (mainStep st).discarded = st.discarded
    unfold mainStep
    repeat' split
    all_goals rfl
  | w i =>
    show (match st.workers.get? i with
      | none => st
      | some pc => workerStep cfg st i pc).discarded = st.discarded
    split
    · rfl
    · rename_i pc hg
      cases pc <;> simp only [workerStep] <;> repeat' split
      all_goals first | rfl | simp_all

/-- With the stop flag clear and the coordinator not draining, nothing
is drained. -/
theorem drained_preserved (cfg : TSConfig) (st : TSState) (l : TSLabel)
    (hstop : st.stop = false) (hnd : st.mainPC ≠ MainPC.draining) :
    (stepTS cfg st l).drained = st.drained := by
  cases l with
  | sigStop => rfl
  | sigPause => rfl
  | sigResume => rfl
  | m =>
    show (mainStep st).drained = st.drained
    unfold mainStep
    repeat' split
    all_goals first | rfl | simp_all
  | w i =>
    show (match st.workers.get? i with
      | none => st
      | some pc => workerStep cfg st i pc).drained = st.drained
    split
    · rfl
    · rename_i pc hg
      cases pc <;> simp only [workerStep] <;> repeat' split
      all_goals rfl

/-- With the stop flag clear, the coordinator never enters its draining
phase. -/
theorem notDraining_preserved (cfg : TSConfig) (st : TSState) (l : TSLabel)
    (hstop : st.stop = false) (hnd : st.mainPC ≠ MainPC.draining) :
    (stepTS cfg st l).mainPC ≠ MainPC.draining := by
  cases l with
  | sigStop => exact hnd
  | sigPause => exact hnd
  | sigResume => exact hnd
  | m =>
    show (mainStep st).mainPC ≠ MainPC.draining
    unfold mainStep
    repeat' split
    all_goals first | exact hnd | simp_all
  | w i =>
    show (match st.workers.get? i with
      | none => st
      | some pc => workerStep cfg st i pc).mainPC ≠ MainPC.draining
    split
    · exact hnd
    · rename_i pc hg
      cases pc <;> simp only [workerStep] <;> repeat' split
      all_goals exact hnd

/-- With the stop flag clear, collection still only happens after the
unfinished counter reached zero. -/
theorem colZero_preserved (cfg : TSConfig) (st : TSState) (l : TSLabel)
    (hstop : st.stop = false) (hnd : st.mainPC ≠ MainPC.draining)
    (hcol : (st.mainPC = MainPC.collecting ∨ st.mainPC = MainPC.finished) →
      st.unfinished = 0) :
    ((stepTS cfg st l).mainPC = MainPC.collecting
      ∨ (stepTS cfg st l).mainPC = MainPC.finished) →
    (stepTS cfg st l).unfinished = 0 := by
  cases l with
  | sigStop => exact hcol
  | sigPause => exact hcol
  | sigResume => exact hcol
  | m =>
    show ((mainStep st).mainPC = MainPC.collecting ∨ (mainStep st).mainPC = MainPC.finished) →
      (mainStep st).unfinished = 0
    unfold mainStep
    split
    · split
      · rename_i hs
        rw [hstop] at hs
        exact absurd hs (by simp)
      · split
        · rename_i h0
          intro _
          exact h0
        · exact hcol
    · rename_i hm
      exact absurd hm hnd
    · rename_i hm
      split
      · intro _
        exact hcol (Or.inl hm)
      · intro _
        exact hcol (Or.inl hm)
    · exact hcol
  | w i =>
    show ((match st.workers.get? i with
        | none => st
        | some pc => workerStep cfg st i pc).mainPC = MainPC.collecting
      ∨ (match st.workers.get? i with
        | none => st
        | some pc => workerStep cfg st i pc).mainPC = MainPC.finished) →
      (match st.workers.get? i with
        | none => st
        | some pc => workerStep cfg st i pc).unfinished = 0
    split
    · exact hcol
    · rename_i pc hg
      cases pc with
      | done => exact hcol
      | loopTop =>
        simp only [workerStep]
        split
        · exact hcol
        · split
          · exact hcol
          · split
            · exact hcol
            · split
              · exact hcol
              · exact hcol
      | got s =>
        simp only [workerStep]
        split
        · rename_i hs
          rw [hstop] at hs
          exact absurd hs (by simp)
        · exact hcol
      | processing s =>
        simp only [workerStep]
        intro hx
        have h0 := hcol hx
        omega

/-- With the stop flag clear, the call still only returns once the
result queue is empty. -/
theorem finEmpty_preserved (cfg : TSConfig) (st : TSState) (l : TSLabel)
    (hstop : st.stop = false) (hnd : st.mainPC ≠ MainPC.draining)
    (hunf : unfinOK st)
    (hcol : (st.mainPC = MainPC.collecting ∨ st.mainPC = MainPC.finished) →
      st.unfinished = 0)
    (hfin : st.mainPC = MainPC.finished → st.resultsQ = []) :
    (stepTS cfg st l).mainPC = MainPC.finished → (stepTS cfg st l).resultsQ = [] := by
  cases l with
  | sigStop => exact hfin
  | sigPause => exact hfin
  | sigResume => exact hfin
  | m =>
    show (mainStep st).mainPC = MainPC.finished → (mainStep st).resultsQ = []
    unfold mainStep
    split
    · split
      · rename_i hs
        rw [hstop] at hs
        exact absurd hs (by simp)
      · split
        · intro hx
          exact absurd hx (by simp)
        · exact hfin
    · rename_i hm
      exact absurd hm hnd
    · split
      · rename_i hr
        intro _
        exact hr
      · rename_i hm x r rest hr
        intro hx
        exact absurd (hm.symm.trans hx) (by simp)
    · exact hfin
  | w i =>
    show (match st.workers.get? i with
        | none => st
        | some pc => workerStep cfg st i pc).mainPC = MainPC.finished →
      (match st.workers.get? i with
        | none => st
        | some pc => workerStep cfg st i pc).resultsQ = []
    split
    · exact hfin
    · rename_i pc hg
      cases pc with
      | done => exact hfin
      | loopTop =>
        simp only [workerStep]
        split
        · exact hfin
        · split
          · exact hfin
          · split
            · exact hfin
            · split
              · exact hfin
              · exact hfin
      | got s =>
        simp only [workerStep]
        split
        · rename_i hs
          rw [hstop] at hs
          exact absurd hs (by simp)
        · exact hfin
      | processing s =>
        simp only [workerStep]
        intro hx
        exfalso
        have h0 : st.unfinished = 0 := hcol (Or.inr hx)
        have hle := inflight_le_all st.workers i (WorkerPC.processing s) hg
        have hcard := Multiset.card_le_card hle
        simp only [inflight, Multiset.card_singleton] at hcard
        rw [hunf] at h0
        omega

/-- One step of any label other than the stop signal preserves the
no-stop invariant. -/
theorem noStop_step (cfg : TSConfig) (targets : List Server) (st : TSState) (l : TSLabel)
    (hl : l ≠ TSLabel.sigStop) (h : noStopInv targets st) :
    noStopInv targets (stepTS cfg st l) := by
  obtain ⟨hstop, hdr, hdis, hnd, hunf, hcol, hfin, hfp⟩ := h
  exact ⟨stop_preserved cfg st l hl hstop,
    (drained_preserved cfg st l hstop hnd).trans hdr,
    (discarded_preserved cfg st l hstop).trans hdis,
    notDraining_preserved cfg st l hstop hnd,
    unfin_step cfg st l hunf,
    colZero_preserved cfg st l hstop hnd hcol,
    finEmpty_preserved cfg st l hstop hnd hunf hcol hfin,
    (footprint_step cfg st l).trans hfp⟩

/-- The no-stop invariant holds after any schedule that never signals
stop. -/
theorem noStop_run (cfg : TSConfig) (targets : List Server) :
    ∀ (labels : List TSLabel) (st : TSState), noStopInv targets st →
      (∀ l ∈ labels, l ≠ TSLabel.sigStop) → noStopInv targets (runTS cfg st labels) := by
  intro labels
  induction labels with
  | nil => intro st h _; exact h
  | cons l t ih =>
    intro st h hall
    show noStopInv targets (runTS cfg (stepTS cfg st l) t)
    exact ih (stepTS cfg st l)
      (noStop_step cfg targets st l (hall l (List.mem_cons_self _ _)) h)
      (fun x hx => hall x (List.mem_cons_of_mem _ hx))

/-- The initial state satisfies the no-stop invariant. -/
theorem noStopInv_init (cfg : TSConfig) (targets : List Server) :
    noStopInv targets (initTS cfg targets) := by
  refine ⟨rfl, rfl, rfl, by simp [initTS], ?_, ?_, fun _ => rfl, footprint_init cfg targets⟩
  · unfold unfinOK initTS
    simp [inflightAll_replicate]
  · intro h
    rcases h with h | h <;> exact MainPC.noConfusion h

/-- C1 (amended): over the interleaving semantics of test_servers, (1)
for any schedule that never signals stop and whose run returns, the
collected results are exactly one per submitted target — so with worker
count at most N there are exactly N results, each holding an optional
latency — and the returned sorted list has length N; (2) in every run,
stopped or not, the submitted targets are conserved across the published
results, the pending result queue, the queue, the in-flight targets and
the skipped targets (coordinator-drained plus worker-discarded), so that
whenever the queue is empty and no target is in flight the published
count plus the skipped count equals N; (3) a worker that observes an
empty queue exits if and only if the ambient active-thread count —
live pool workers plus the main thread plus unrelated threads — is at
most max_workers + 1: the exit decision is thread-count introspection,
not a confirmed-drain signal. -/
theorem test_servers_c1 (cfg : TSConfig) (targets : List Server) (labels : List TSLabel)
    (hstop : TSLabel.sigStop ∉ labels)
    (hfin : (runTS cfg (initTS cfg targets) labels).mainPC = MainPC.finished) :
    ((runTS cfg (initTS cfg targets) labels).collected.map TSResult.server : Multiset Server)
        = (targets : Multiset Server)
    ∧ (test_serversList cfg targets labels).length = targets.length
    ∧ (∀ labels2 : List TSLabel,
        footprint (runTS cfg (initTS cfg targets) labels2) = (targets : Multiset Server))
    ∧ (∀ labels2 : List TSLabel,
        (runTS cfg (initTS cfg targets) labels2).queue = [] →
        inflightAll (runTS cfg (initTS cfg targets) labels2).workers = 0 →
        ((runTS cfg (initTS cfg targets) labels2).collected.length
          + (runTS cfg (initTS cfg targets) labels2).resultsQ.length)
          + ((runTS cfg (initTS cfg targets) labels2).drained.length
            + (runTS cfg (initTS cfg targets) labels2).discarded.length)
          = targets.length)
    ∧ (∀ (st : TSState) (i : ℕ), st.queue = [] → st.stop = false → st.pause = false →
        st.workers.get? i = some WorkerPC.loopTop →
        ((stepTS cfg st (TSLabel.w i)).workers.get? i = some WorkerPC.done
          ↔ liveCount st.workers + 1 + cfg.ambient ≤ cfg.maxWorkers + 1)) := by
  have hall : ∀ l ∈ labels, l ≠ TSLabel.sigStop := fun l hl he => hstop (he ▸ hl)
  have hinv := noStop_run cfg targets labels (initTS cfg targets)
    (noStopInv_init cfg targets) hall
  obtain ⟨h1, h2, h3, h4, h5, h6, h7, h8⟩ := hinv
  have h0 : (runTS cfg (initTS cfg targets) labels).unfinished = 0 := h6 (Or.inr hfin)
  rw [unfinOK] at h5
  rw [h5] at h0
  have hqe : (runTS cfg (initTS cfg targets) labels).queue = [] :=
    List.length_eq_zero.mp (by omega)
  have hie : inflightAll (runTS cfg (initTS cfg targets) labels).workers = 0 :=
    Multiset.card_eq_zero.mp (by omega)
  have hre : (runTS cfg (initTS cfg targets) labels).resultsQ = [] := h7 hfin
  have hcoll : ((runTS cfg (initTS cfg targets) labels).collected.map TSResult.server
      : Multiset Server) = (targets : Multiset Server) := by
    have hfp := h8
    rw [footprint, hqe, hre, h2, h3, hie] at hfp
    simpa using hfp
  have hlen : (runTS cfg (initTS cfg targets) labels).collected.length = targets.length := by
    have hc := congrArg Multiset.card hcoll
    simpa [Multiset.coe_card] using hc
  refine ⟨hcoll, ?_, ?_, ?_, ?_⟩
  · unfold test_serversList
    split
    · rename_i hz
      simp only [List.length_nil]
      omega
    · unfold sortResults
      rw [List.length_insertionSort]
      exact hlen
  · intro labels2
    exact (footprint_run cfg labels2 (initTS cfg targets)).trans (footprint_init cfg targets)
  · intro labels2 hq2 hi2
    have hf2 := (footprint_run cfg labels2 (initTS cfg targets)).trans
      (footprint_init cfg targets)
    rw [footprint, hq2, hi2] at hf2
    have hc2 := congrArg Multiset.card hf2
    simp only [Multiset.card_add, Multiset.coe_card, Multiset.coe_nil, Multiset.card_zero,
      List.length_map] at hc2
    omega
  · intro st i hq hstop2 hpause hg
    show ((match st.workers.get? i with
        | none => st
        | some pc => workerStep cfg st i pc).workers.get? i = some WorkerPC.done
      ↔ liveCount st.workers + 1 + cfg.ambient ≤ cfg.maxWorkers + 1)
    rw [hg]
    simp only [workerStep, hstop2, hpause, hq, Bool.false_eq_true, if_false]
    constructor
    · intro hd
      by_contra hcond
      rw [if_neg hcond] at hd
      rw [hg] at hd
      exact absurd hd (by simp)
    · intro hcond
      rw [if_pos hcond]
      exact get_set_self st.workers i WorkerPC.done
        (get_some_lt st.workers i WorkerPC.loopTop hg)

/-- Witness for C1: two targets, two workers, a stop-free schedule that
runs to completion; both targets are collected. -/
theorem test_servers_c1_witness :
    TSLabel.sigStop ∉ [TSLabel.w 0, TSLabel.w 0, TSLabel.w 0, TSLabel.w 1, TSLabel.w 1,
        TSLabel.w 1, TSLabel.m, TSLabel.m, TSLabel.m, TSLabel.m]
    ∧ ((runTS ⟨2, 0, fun _ _ _ => some 10, 3, 10⟩
        (initTS ⟨2, 0, fun _ _ _ => some 10, 3, 10⟩
          [⟨some ("a"), some ("10.0.0.1"), EndpointData.other, none, none, none, none⟩,
           ⟨some ("b"), some ("10.0.0.2"), EndpointData.other, none, none, none, none⟩])
        [TSLabel.w 0, TSLabel.w 0, TSLabel.w 0, TSLabel.w 1, TSLabel.w 1,
         TSLabel.w 1, TSLabel.m, TSLabel.m, TSLabel.m, TSLabel.m]).mainPC = MainPC.finished)
    ∧ (((runTS ⟨2, 0, fun _ _ _ => some 10, 3, 10⟩
        (initTS ⟨2, 0, fun _ _ _ => some 10, 3, 10⟩
          [⟨some ("a"), some ("10.0.0.1"), EndpointData.other, none, none, none, none⟩,
           ⟨some ("b"), some ("10.0.0.2"), EndpointData.other, none, none, none, none⟩])
        [TSLabel.w 0, TSLabel.w 0, TSLabel.w 0, TSLabel.w 1, TSLabel.w 1,
         TSLabel.w 1, TSLabel.m, TSLabel.m, TSLabel.m, TSLabel.m]).collected.map
          TSResult.server : Multiset Server)
      = (([⟨some ("a"), some ("10.0.0.1"), EndpointData.other, none, none, none, none⟩,
          ⟨some ("b"), some ("10.0.0.2"), EndpointData.other, none, none, none, none⟩]
          : List Server) : Multiset Server)) :=
  ⟨by decide, by decide,
    (test_servers_c1 ⟨2, 0, fun _ _ _ => some 10, 3, 10⟩
      [⟨some ("a"), some ("10.0.0.1"), EndpointData.other, none, none, none, none⟩,
       ⟨some ("b"), some ("10.0.0.2"), EndpointData.other, none, none, none, none⟩]
      [TSLabel.w 0, TSLabel.w 0, TSLabel.w 0, TSLabel.w 1, TSLabel.w 1,
       TSLabel.w 1, TSLabel.m, TSLabel.m, TSLabel.m, TSLabel.m]
      (by decide) (by decide)).1⟩

/-- C1 counterexample: the claim as stated is false on the code in two
ways.  First, with the queue empty and every task done (draining
confirmed complete), the same worker step exits when no unrelated
threads exist but keeps polling when five unrelated threads raise
threading.active_count(): the exit decision is thread-count
introspection, not the drain state.  Second, a stopped run can return
with zero published results and zero skipped targets for one submitted
target — the worker holding it never got to publish before the
coordinator finished — so published + skipped ≠ N at return time. -/
theorem test_servers_c1_cex :
    ((stepTS ⟨1, 0, fun _ _ _ => none, 3, 10⟩
        ⟨[], 0, [], 0, false, false, [WorkerPC.loopTop], [], [], [], MainPC.monitor⟩
        (TSLabel.w 0)).workers = [WorkerPC.done]
      ∧ (stepTS ⟨1, 5, fun _ _ _ => none, 3, 10⟩
        ⟨[], 0, [], 0, false, false, [WorkerPC.loopTop], [], [], [], MainPC.monitor⟩
        (TSLabel.w 0)).workers = [WorkerPC.loopTop])
    ∧ ((runTS ⟨1, 0, fun _ _ _ => some 10, 3, 10⟩
        (initTS ⟨1, 0, fun _ _ _ => some 10, 3, 10⟩
          [⟨some ("a"), some ("10.0.0.1"), EndpointData.other, none, none, none, none⟩])
        [TSLabel.w 0, TSLabel.w 0, TSLabel.sigStop, TSLabel.m, TSLabel.m,
         TSLabel.m]).mainPC = MainPC.finished
      ∧ (runTS ⟨1, 0, fun _ _ _ => some 10, 3, 10⟩
        (initTS ⟨1, 0, fun _ _ _ => some 10, 3, 10⟩
          [⟨some ("a"), some ("10.0.0.1"), EndpointData.other, none, none, none, none⟩])
        [TSLabel.w 0, TSLabel.w 0, TSLabel.sigStop, TSLabel.m, TSLabel.m,
         TSLabel.m]).collected.length
        + ((runTS ⟨1, 0, fun _ _ _ => some 10, 3, 10⟩
          (initTS ⟨1, 0, fun _ _ _ => some 10, 3, 10⟩
            [⟨some ("a"), some ("10.0.0.1"), EndpointData.other, none, none, none, none⟩])
          [TSLabel.w 0, TSLabel.w 0, TSLabel.sigStop, TSLabel.m, TSLabel.m,
           TSLabel.m]).drained.length
          + (runTS ⟨1, 0, fun _ _ _ => some 10, 3, 10⟩
            (initTS ⟨1, 0, fun _ _ _ => some 10, 3, 10⟩
              [⟨some ("a"), some ("10.0.0.1"), EndpointData.other, none, none, none, none⟩])
            [TSLabel.w 0, TSLabel.w 0, TSLabel.sigStop, TSLabel.m, TSLabel.m,
             TSLabel.m]).discarded.length)
        = 0) := by
  refine ⟨⟨?_, ?_⟩, ?_, ?_⟩ <;> decide
